import Mathlib

/-! Verification development for the LightTranslator Tauri backend
(`src/src-tauri/src/lib.rs`): a shallow embedding of its command handlers and
helper logic, with theorems settling the specification's claims.

External effects (the reqwest HTTP client, the filesystem, spawned processes,
the clipboard, and the global-shortcut plugin) are modelled as explicit
environment records whose fields give each external call's outcome; the Rust
`Result<T, String>` command results become `Except String T`. Rust `String`
values that the code inspects character by character (OCR text, cursor-location
output, base64 payloads) are modelled as `List Char`; strings the code only
builds or compares whole are `String`. -/

/-- Bytes of a file, as in `Vec<u8>`. -/
abbrev Bytes := List Nat

/-- Result of a launched process as produced by `std::process::Command::output`:
the exit-status success flag plus captured stdout and stderr (text obtained via
`String::from_utf8_lossy`, modelled as a char list). -/
structure ProcOut where
  success : Bool
  stdout : List Char
  stderr : List Char
deriving DecidableEq

/-! ### Character-list utilities mirroring the Rust `str` methods used -/

/-- Unicode whitespace test used by Rust `split_whitespace` and `str::trim`
(the inputs the code meets are ASCII, where `Char.isWhitespace` agrees). -/
def isWS (c : Char) : Bool := c.isWhitespace

/-- Worker for splitting on a one-char separator: the first piece and the
remaining pieces, kept separate so the result is visibly nonempty. -/
def splitOnChAux (sep : Char) : List Char → List Char × List (List Char)
  | [] => ([], [])
  | c :: cs =>
    let r := splitOnChAux sep cs
    if c = sep then ([], r.1 :: r.2) else (c :: r.1, r.2)

/-- Rust `str::split(sep)` for a one-char separator: the list of pieces
between occurrences of `sep` (empty input gives one empty piece). -/
def splitOnCh (sep : Char) (l : List Char) : List (List Char) :=
  (splitOnChAux sep l).1 :: (splitOnChAux sep l).2

/-- Drop one trailing carriage return, as `str::lines` does for `\r\n` endings. -/
def stripCR (l : List Char) : List Char :=
  if l.getLast? = some '\r' then l.dropLast else l

/-- Keep a final piece only when a trailing line terminator was absent
(`str::lines` treats the final line ending as optional). -/
def endLine (l : List Char) : List (List Char) :=
  if l = [] then [] else [l]

/-- Assemble the pieces produced by splitting on a newline into Rust lines:
every piece before a `\n` loses a trailing `\r`; the piece after the last `\n`
is kept verbatim, or dropped when empty. -/
def rustLinesAux : List (List Char) → List (List Char)
  | [] => []
  | [l] => endLine l
  | p :: rest => stripCR p :: rustLinesAux rest

/-- Rust `str::lines`: split at `\n` or `\r\n`, terminators excluded, with the
final line ending optional. -/
def rustLines (s : List Char) : List (List Char) :=
  rustLinesAux (splitOnCh '\n' s)

/-- Rust `str::trim`: drop leading and trailing whitespace. -/
def trimWS (l : List Char) : List Char :=
  ((l.dropWhile isWS).reverse.dropWhile isWS).reverse

/-- Rust `[&str]::join(" ")`: concatenate pieces with a single space between
consecutive pieces. -/
def joinSp : List (List Char) → List Char
  | [] => []
  | [l] => l
  | l :: ls => l ++ ' ' :: joinSp ls

/-- Rust `str::split_whitespace`: maximal runs of non-whitespace characters,
with no empty tokens. `acc` carries the current token reversed. -/
def splitWsAux : List Char → List Char → List (List Char)
  | [], acc => if acc = [] then [] else [acc.reverse]
  | c :: cs, acc =>
    if isWS c then
      if acc = [] then splitWsAux cs [] else acc.reverse :: splitWsAux cs []
    else splitWsAux cs (c :: acc)

/-- Rust `str::split_whitespace` over the whole input. -/
def splitWs (s : List Char) : List (List Char) := splitWsAux s []

/-- Rust `str::strip_` + `prefix`: `some` of the remainder when `pre` is a
prefix of `s`, otherwise `none`. -/
def stripPre : List Char → List Char → Option (List Char)
  | [], s => some s
  | _ :: _, [] => none
  | p :: ps, c :: cs => if c = p then stripPre ps cs else none

/-- Value of a nonempty all-decimal-digit char list, else `none`
(the digit scan of Rust's integer `FromStr`). -/
def decVal (l : List Char) : Option Nat :=
  if l = [] then none
  else if l.all Char.isDigit then
    some (l.foldl (fun a c => a * 10 + (c.toNat - 48)) 0)
  else none

/-- Rust `str::parse::<i32>()`: an optional single sign followed by decimal
digits, rejected outside the `i32` range. -/
def parseI32 (l : List Char) : Option Int :=
  match l with
  | '+' :: rest => (decVal rest).bind fun n =>
      if n ≤ 2147483647 then some (Int.ofNat n) else none
  | '-' :: rest => (decVal rest).bind fun n =>
      if n ≤ 2147483648 then some (-(Int.ofNat n)) else none
  | _ => (decVal l).bind fun n =>
      if n ≤ 2147483647 then some (Int.ofNat n) else none

/-! ### Proxy-aware request dispatcher (`proxy_request`, lib.rs 81-160) -/

/-- `ProxySettings` (lib.rs 53-61); `port : Nat` stands for the `u16`. -/
structure ProxySettings where
  enabled : Bool
  protocol : String
  host : String
  port : Nat
  username : Option String
  password : Option String
deriving DecidableEq

/-- `ProxyRequestOptions` (lib.rs 13-18); the Rust header `HashMap` is an
association list (its iteration order is immaterial to every claim). -/
structure ProxyRequestOptions where
  method : Option String
  headers : Option (List (String × String))
  body : Option String
deriving DecidableEq

/-- `ProxyResponse` (lib.rs 20-27). -/
structure ProxyResponse where
  ok : Bool
  status_code : Option Nat
  data : Option String
  error : Option String
deriving DecidableEq

/-- The five HTTP verbs selectable in `proxy_request` (lib.rs 116-122). -/
inductive Verb
  | get | post | put | delete | patch
deriving DecidableEq

/-- The reqwest client value: direct (`Client::new()`) or routed through a
proxy URL (`Client::builder().proxy(..).build()`, lib.rs 95-99). -/
inductive HClient
  | direct
  | proxied (proxyUrl : String)
deriving DecidableEq

/-- Rust `str::to_uppercase`, modelled as per-character upper-casing of the
string's char data (Rust's Unicode mapping agrees with `Char.toUpper` on the
ASCII method names involved). -/
def toUpperStr (s : String) : String := ⟨s.data.map Char.toUpper⟩

/-- Verb selection (lib.rs 116-122): `match method.to_uppercase().as_str()`
with `_ => client.get(..)` as the fallback. -/
def methodVerb (method : String) : Verb :=
  let u := toUpperStr method
  if u = "POST" then .post
  else if u = "PUT" then .put
  else if u = "DELETE" then .delete
  else if u = "PATCH" then .patch
  else .get

/-- Case-insensitive string equality: equal after upper-casing both sides. -/
def eqIgnoreCase (a b : String) : Prop := toUpperStr a = toUpperStr b

instance (a b : String) : Decidable (eqIgnoreCase a b) :=
  inferInstanceAs (Decidable (toUpperStr a = toUpperStr b))

/-- Outcomes of the reqwest operations `proxy_request` performs:
`Proxy::all`, `ClientBuilder::build`, and sending the assembled request
(`send` yields status code and response text; a body-read failure is already
defaulted to `""` there, as in `text().await.unwrap_or_default()`). -/
structure HttpEnv where
  proxyAll : String → Except String Unit
  buildProxied : String → Except String Unit
  send : HClient → Verb → String → List (String × String) → Option String →
    Except String (Nat × String)

/-- Client construction (lib.rs 87-106): with a stored, enabled proxy config,
format `protocol://host:port`, run `Proxy::all` and then the builder — each
`?` propagating its error string to the command's caller; otherwise
`Client::new()`. -/
def buildClient (env : HttpEnv) (proxy_settings : Option ProxySettings) :
    Except String HClient :=
  match proxy_settings with
  | some settings =>
    if settings.enabled then
      let proxy_url :=
        settings.protocol ++ "://" ++ settings.host ++ ":" ++ toString settings.port
      match env.proxyAll proxy_url with
      | .error e => .error e
      | .ok _ =>
        match env.buildProxied proxy_url with
        | .error e => .error e
        | .ok _ => .ok (.proxied proxy_url)
    else .ok .direct
  | none => .ok .direct

/-- reqwest `StatusCode::is_success`: the 2xx range. -/
def isSuccessStatus (status : Nat) : Bool := decide (200 ≤ status ∧ status ≤ 299)

/-- `proxy_request` (lib.rs 81-160). `proxy_settings` is the value read from
the state mutex; the network is the environment. The `Result<ProxyResponse,
String>` return is `Except String ProxyResponse`: the `?` operators on client
construction surface as `.error`, while a `send` failure is encoded in-band. -/
def proxy_request (env : HttpEnv) (url : String)
    (options : Option ProxyRequestOptions)
    (proxy_settings : Option ProxySettings) : Except String ProxyResponse :=
  match buildClient env proxy_settings with
  | .error e => .error e
  | .ok client =>
    let opts := options.getD ⟨none, none, none⟩
    let method := opts.method.getD "GET"
    let verb := methodVerb method
    let headers := opts.headers.getD []
    match env.send client verb url headers opts.body with
    | .ok (status, text) =>
      .ok ⟨isSuccessStatus status, some status, some text, none⟩
    | .error e => .ok ⟨false, none, none, some e⟩

/-! ### OCR pipeline (`capture_screen`, `ocr_image`, `check_ocr_dependencies`) -/

/-- `OcrResult` (lib.rs 29-34). -/
structure OcrResult where
  success : Bool
  text : Option (List Char)
  error : Option (List Char)
deriving DecidableEq

/-- Payload extraction of `ocr_image` (lib.rs 197-201):
`if base64_image.contains(",") { base64_image.split(',').nth(1)
.unwrap_or(&base64_image) } else { &base64_image }`. -/
def extractBase64 (base64_image : List Char) : List Char :=
  if ',' ∈ base64_image then
    ((splitOnCh ',' base64_image).get? 1).getD base64_image
  else base64_image

/-- Everything after the first occurrence of `c` (nothing when `c` is absent). -/
def afterFirst (c : Char) : List Char → List Char
  | [] => []
  | x :: xs => if x = c then xs else afterFirst c xs

/-- The specification's wording of the stripping step, for the refinement
comparison with `extractBase64`: "split on first comma, take remainder; if no
comma, use the whole string as-is". -/
def specStripDataUrl (s : List Char) : List Char :=
  if ',' ∈ s then afterFirst ',' s else s

/-- Post-processing of tesseract stdout (lib.rs 224-228):
`text.lines().filter(|line| !line.trim().is_empty()).collect::<Vec<_>>()
.join(" ")`. -/
def cleanText (text : List Char) : List Char :=
  joinSp ((rustLines text).filter (fun line => !(trimWS line).isEmpty))

/-- Outcomes of the external operations `ocr_image` performs: the base64
crate's decode, `NamedTempFile::new` (giving the base path), `fs::write`, and
launching tesseract. The best-effort `remove_file` between the tesseract run
and the status branch has no observable effect on the returned value and is
not tracked here. -/
structure OcrEnv where
  decode : List Char → Except String Bytes
  tempPath : Except String String
  writeFile : String → Bytes → Except String Unit
  tesseract : String → Except String ProcOut

/-- `ocr_image` after payload extraction (lib.rs 203-243): decode, write the
scratch file, run tesseract, and branch on its exit status. -/
def ocrFromData (env : OcrEnv) (base64_data : List Char) : Except String OcrResult :=
  match env.decode base64_data with
  | .error e => .error ("Failed to decode base64: " ++ e)
  | .ok image_bytes =>
    match env.tempPath with
    | .error e => .error e
    | .ok base =>
      let temp_path := base ++ ".png"
      match env.writeFile temp_path image_bytes with
      | .error e => .error e
      | .ok _ =>
        match env.tesseract temp_path with
        | .error e => .error ("Failed to run tesseract: " ++ e)
        | .ok output =>
          if output.success then
            .ok ⟨true, some (cleanText output.stdout), none⟩
          else
            .ok ⟨false, none, some output.stderr⟩

/-- `ocr_image` (lib.rs 194-243). -/
def ocr_image (env : OcrEnv) (base64_image : List Char) : Except String OcrResult :=
  ocrFromData env (extractBase64 base64_image)

/-- Outcomes of the external operations `capture_screen` performs. -/
structure CaptureEnv where
  tempfileNew : Except String String
  gnomeScreenshot : String → Except String Bool
  pathExists : String → Bool
  readFile : String → Except String Bytes
  base64Encode : Bytes → String

/-- `capture_screen` (lib.rs 162-192). The second component records whether
`fs::remove_file` was attempted on the scratch path before returning; in the
source that call appears only on the full success path (line 189). -/
def capture_screen (env : CaptureEnv) : Except String (Option String) × Bool :=
  match env.tempfileNew with
  | .error e => (.error e, false)
  | .ok base =>
    let temp_path := base ++ ".png"
    match env.gnomeScreenshot temp_path with
    | .error e => (.error ("Failed to run gnome-screenshot: " ++ e), false)
    | .ok exitOk =>
      if !exitOk then (.ok none, false)
      else if !(env.pathExists temp_path) then (.ok none, false)
      else
        match env.readFile temp_path with
        | .error e => (.error e, false)
        | .ok image_data =>
          let base64_data := env.base64Encode image_data
          (.ok (some ("data:image/png;base64," ++ base64_data)), true)

/-- `OcrDependencyStatus` (lib.rs 36-45). -/
structure OcrDependencyStatus where
  tesseract_installed : Bool
  tesseract_version : Option (List Char)
  languages : List (List Char)
  gnome_screenshot_installed : Bool
deriving DecidableEq

/-- Outcomes of the three probes `check_ocr_dependencies` launches:
`tesseract --version`, `tesseract --list-langs`, `which gnome-screenshot`
(`.error` is a launch failure; a non-zero exit is an `.ok` with
`success = false`). -/
structure DepsEnv where
  tesseractVersion : Except String ProcOut
  tesseractListLangs : Except String ProcOut
  whichGnomeScreenshot : Except String ProcOut

/-- `check_ocr_dependencies` (lib.rs 245-289). -/
def check_ocr_dependencies (env : DepsEnv) : Except String OcrDependencyStatus :=
  let tv :=
    match env.tesseractVersion with
    | .ok output =>
      if output.success then (true, some ((rustLines output.stdout).headD []))
      else (false, none)
    | .error _ => (false, none)
  let languages :=
    if tv.1 then
      match env.tesseractListLangs with
      | .ok output =>
        if output.success then (rustLines output.stdout).drop 1 else []
      | .error _ => []
    else []
  let gnome_screenshot_installed :=
    match env.whichGnomeScreenshot with
    | .ok output => output.success
    | .error _ => false
  .ok ⟨tv.1, tv.2, languages, gnome_screenshot_installed⟩

/-! ### Cursor-position parsing in `trigger_quick_translate` (lib.rs 430-444) -/

/-- One iteration of the token loop (lib.rs 436-442): an `x:`-prefixed token
sets x to its parse with default 100, a `y:`-prefixed token sets y likewise,
any other token is skipped. -/
def cursorStep (acc : Int × Int) (part : List Char) : Int × Int :=
  match stripPre ['x', ':'] part with
  | some val => ((parseI32 val).getD 100, acc.2)
  | none =>
    match stripPre ['y', ':'] part with
    | some val => (acc.1, (parseI32 val).getD 100)
    | none => acc

/-- Cursor-position resolution (lib.rs 430-444): split the
`xdotool getmouselocation` output on whitespace and run the token loop from
the declared defaults `(100, 100)`. -/
def parseCursorLocation (location : List Char) : Int × Int :=
  (splitWs location).foldl cursorStep (100, 100)

/-- A token the loop treats as carrying the x coordinate. -/
def isXTok (p : List Char) : Bool := (stripPre ['x', ':'] p).isSome

/-- A token the loop treats as carrying the y coordinate. -/
def isYTok (p : List Char) : Bool := (stripPre ['y', ':'] p).isSome

/-- The coordinate an `x:`/`y:` token contributes: the parse of its remainder
after the two-char tag, defaulting to 100. -/
def tokVal (tag : Char) (t : List Char) : Int :=
  (parseI32 ((stripPre [tag, ':'] t).getD [])).getD 100

/-! ### Shortcut configuration store (`update_shortcut`, lib.rs 313-345) -/

/-- The parsed form of a hotkey string
(`tauri_plugin_global_shortcut::Shortcut`), kept abstract: the environment's
parser assigns each string a token or a parse error. -/
abbrev ShortcutTok := Nat

/-- Outcomes of the global-shortcut plugin calls: `str::parse::<Shortcut>`
(its `Err` already rendered with `format!` as in lib.rs 328) and
`on_shortcut` registration. -/
structure ShortcutEnv where
  parse : String → Except String ShortcutTok
  registerOutcome : ShortcutTok → Except String Unit

/-- The shared state `update_shortcut` touches: the stored shortcut string
(`AppState.current_shortcut`) and the multiset of hotkeys currently registered
with the OS subsystem. -/
structure ShortcutState where
  current_shortcut : String
  registered : List ShortcutTok
deriving DecidableEq

/-- `update_shortcut` (lib.rs 313-345): first unregister the old binding
(parse failure of the old string swallowed, unregister result ignored), then
parse the new string — failure aborts with `Err` — then register the handler,
then commit the new string to the store. -/
def update_shortcut (env : ShortcutEnv) (st : ShortcutState) (shortcut : String) :
    Except String Bool × ShortcutState :=
  let st1 :=
    match env.parse st.current_shortcut with
    | .ok old_sc => { st with registered := st.registered.erase old_sc }
    | .error _ => st
  match env.parse shortcut with
  | .error e => (.error e, st1)
  | .ok new_sc =>
    match env.registerOutcome new_sc with
    | .error e => (.error e, st1)
    | .ok _ =>
      (.ok true,
        { st1 with
            current_shortcut := shortcut,
            registered := st1.registered ++ [new_sc] })

/-! ### Concrete environments used by witnesses and counterexamples -/

/-- A network environment with no proxy trouble whose transport send fails. -/
def directEnv : HttpEnv :=
  { proxyAll := fun _ => .ok ()
    buildProxied := fun _ => .ok ()
    send := fun _ _ _ _ _ => .error "connection refused" }

/-- A network environment in which `Proxy::all` rejects the proxy URL, as it
does for the malformed `http://:0` built from an empty host. -/
def badProxyEnv : HttpEnv :=
  { proxyAll := fun _ => .error "builder error: empty host"
    buildProxied := fun _ => .ok ()
    send := fun _ _ _ _ _ => .error "unreachable" }

/-- An enabled proxy configuration with an empty host: its formatted proxy URL
`http://:0` is not a parseable URL. -/
def emptyHostSettings : ProxySettings :=
  ⟨true, "http", "", 0, none, none⟩

/-- A shortcut environment that parses exactly the string `"Ctrl+X"`. -/
def shortcutEnvC : ShortcutEnv :=
  { parse := fun s =>
      if s = "Ctrl+X" then .ok 1 else .error "couldn't recognize the keybinding"
    registerOutcome := fun _ => .ok () }

/-- A capture environment where the screenshot succeeds and the scratch file
exists but reading it fails. -/
def captureEnvReadFail : CaptureEnv :=
  { tempfileNew := .ok "/tmp/cap"
    gnomeScreenshot := fun _ => .ok true
    pathExists := fun _ => true
    readFile := fun _ => .error "Is a directory (os error 21)"
    base64Encode := fun _ => "" }

/-- An OCR environment whose engine succeeds with multi-line stdout containing
an interior blank line. -/
def ocrEnvOk : OcrEnv :=
  { decode := fun _ => .ok [137]
    tempPath := .ok "/tmp/ocr"
    writeFile := fun _ _ => .ok ()
    tesseract := fun _ => .ok ⟨true, "hello\n\nworld\n".toList, []⟩ }

/-- A dependency-probe environment where nothing is installed: every launch
fails. -/
def depsEnvNone : DepsEnv :=
  { tesseractVersion := .error "No such file or directory"
    tesseractListLangs := .error "No such file or directory"
    whichGnomeScreenshot := .error "No such file or directory" }

/-- A dependency-probe environment with a working tesseract and language
list. -/
def depsEnvFull : DepsEnv :=
  { tesseractVersion := .ok ⟨true, "tesseract 5.3.0\nleptonica-1.82.0\n".toList, []⟩
    tesseractListLangs := .ok ⟨true, "List of available languages (3):\neng\njpn\nkor\n".toList, []⟩
    whichGnomeScreenshot := .ok ⟨true, "/usr/bin/gnome-screenshot\n".toList, []⟩ }

/-! ## Theorems -/

/-- C5: for every method string supplied in the request options, dispatch maps
it to a verb by case-insensitive match — strings equal ignoring case to GET,
POST, PUT, DELETE or PATCH map to the corresponding verb, every other string
maps to GET — and an absent method (defaulted to the string "GET" by
`opts.method.unwrap_or("GET")`) maps to GET. -/
theorem dispatch_method_mapping :
    (∀ s : String,
      (eqIgnoreCase s "GET" → methodVerb s = .get) ∧
      (eqIgnoreCase s "POST" → methodVerb s = .post) ∧
      (eqIgnoreCase s "PUT" → methodVerb s = .put) ∧
      (eqIgnoreCase s "DELETE" → methodVerb s = .delete) ∧
      (eqIgnoreCase s "PATCH" → methodVerb s = .patch) ∧
      (¬ eqIgnoreCase s "GET" → ¬ eqIgnoreCase s "POST" → ¬ eqIgnoreCase s "PUT" →
        ¬ eqIgnoreCase s "DELETE" → ¬ eqIgnoreCase s "PATCH" → methodVerb s = .get)) ∧
    methodVerb ((none : Option String).getD "GET") = .get := by
  refine ⟨fun s => ?_, by decide⟩
  simp only [eqIgnoreCase]
  refine ⟨?_, ?_, ?_, ?_, ?_, ?_⟩
  · intro h; unfold methodVerb; rw [h]; decide
  · intro h; unfold methodVerb; rw [h]; decide
  · intro h; unfold methodVerb; rw [h]; decide
  · intro h; unfold methodVerb; rw [h]; decide
  · intro h; unfold methodVerb; rw [h]; decide
  · intro _ h2 h3 h4 h5
    have e2 : toUpperStr s ≠ "POST" := by
      rw [show ("POST" : String) = toUpperStr "POST" from by decide]; exact h2
    have e3 : toUpperStr s ≠ "PUT" := by
      rw [show ("PUT" : String) = toUpperStr "PUT" from by decide]; exact h3
    have e4 : toUpperStr s ≠ "DELETE" := by
      rw [show ("DELETE" : String) = toUpperStr "DELETE" from by decide]; exact h4
    have e5 : toUpperStr s ≠ "PATCH" := by
      rw [show ("PATCH" : String) = toUpperStr "PATCH" from by decide]; exact h5
    unfold methodVerb
    rw [if_neg e2, if_neg e3, if_neg e4, if_neg e5]

theorem dispatch_method_mapping_witness :
    methodVerb "pAtCh" = .patch ∧ methodVerb "BREW" = .get :=
  ⟨((dispatch_method_mapping.1 "pAtCh").2.2.2.2.1) (by decide),
   ((dispatch_method_mapping.1 "BREW").2.2.2.2.2) (by decide) (by decide)
     (by decide) (by decide) (by decide)⟩

/-- C7: a stored proxy configuration with `enabled = false` makes dispatch
behave identically to an absent configuration, for every environment, URL and
options: both build the direct `Client::new()` transport. -/
theorem proxy_disabled_eq_absent :
    ∀ (env : HttpEnv) (url : String) (options : Option ProxyRequestOptions)
      (s : ProxySettings), s.enabled = false →
      proxy_request env url options (some s) = proxy_request env url options none := by
  intro env url options s h
  simp [proxy_request, buildClient, h]

theorem proxy_disabled_eq_absent_witness :
    proxy_request directEnv "https://example.com" none
        (some ⟨false, "http", "proxy.local", 8080, some "u", some "p"⟩) =
      proxy_request directEnv "https://example.com" none none :=
  proxy_disabled_eq_absent directEnv "https://example.com" none
    ⟨false, "http", "proxy.local", 8080, some "u", some "p"⟩ rfl

/-- C10: the proxied transport is built solely from the protocol, host and
port fields; the username and password fields of `ProxySettings` are never
read by dispatch, so two stored configurations differing only in credentials
produce identical dispatch behavior — for every environment, URL, options and
base configuration (enabled or not). -/
theorem proxy_credentials_unused :
    ∀ (env : HttpEnv) (url : String) (options : Option ProxyRequestOptions)
      (s : ProxySettings) (u1 p1 u2 p2 : Option String),
      proxy_request env url options (some { s with username := u1, password := p1 }) =
      proxy_request env url options (some { s with username := u2, password := p2 }) := by
  intro env url options s u1 p1 u2 p2
  rfl

/-- C2 counterexample: with an enabled proxy configuration whose host is
empty, `Proxy::all` rejects the malformed URL `http://:0` and the `?` operator
makes `proxy_request` return `Err` to its caller — it does not return a
`RequestResult` with `ok = false`, refuting the claim that every failure mode
is encoded in-band. -/
theorem proxy_request_build_failure_raises_cex :
    proxy_request badProxyEnv "https://example.com" none (some emptyHostSettings) =
      .error "builder error: empty host" := rfl

/-- C2 amended: transport-level `send` failures are encoded in-band as
`ok = false, status_code = none, error = some message`, and a successful send
yields an `Ok` response — but a proxy/client construction failure propagates
as an `Err` of the command rather than an in-band `RequestResult`. -/
theorem proxy_request_result_characterization :
    ∀ (env : HttpEnv) (url : String) (options : Option ProxyRequestOptions)
      (ps : Option ProxySettings),
      (∀ e, buildClient env ps = .error e →
        proxy_request env url options ps = .error e) ∧
      (∀ c, buildClient env ps = .ok c →
        (∀ e, env.send c
            (methodVerb ((options.getD ⟨none, none, none⟩).method.getD "GET")) url
            ((options.getD ⟨none, none, none⟩).headers.getD [])
            (options.getD ⟨none, none, none⟩).body = .error e →
          proxy_request env url options ps = .ok ⟨false, none, none, some e⟩) ∧
        (∀ status text, env.send c
            (methodVerb ((options.getD ⟨none, none, none⟩).method.getD "GET")) url
            ((options.getD ⟨none, none, none⟩).headers.getD [])
            (options.getD ⟨none, none, none⟩).body = .ok (status, text) →
          proxy_request env url options ps =
            .ok ⟨isSuccessStatus status, some status, some text, none⟩)) := by
  intro env url options ps
  refine ⟨fun e h => ?_, fun c hc => ⟨fun e hs => ?_, fun status text hs => ?_⟩⟩
  · simp [proxy_request, h]
  · simp [proxy_request, hc, hs]
  · simp [proxy_request, hc, hs]

theorem proxy_request_result_characterization_witness :
    proxy_request directEnv "https://example.com" none none =
      .ok ⟨false, none, none, some "connection refused"⟩ :=
  ((proxy_request_result_characterization directEnv "https://example.com" none none).2
    .direct rfl).1 "connection refused" rfl

/-- C1 counterexample: the previously active binding is NOT left triggerable
on a failed update. With the old string `"Ctrl+X"` parsed and registered (OS
registration list `[1]`), updating to the invalid string `"not-a-shortcut"`
returns an error, leaves the stored string unchanged — but has already
unregistered the old hotkey (registration list now empty), because
`update_shortcut` unregisters the old binding before parsing the new one. -/
theorem update_shortcut_unregisters_before_validate_cex :
    update_shortcut shortcutEnvC ⟨"Ctrl+X", [1]⟩ "not-a-shortcut" =
      (.error "couldn't recognize the keybinding", ⟨"Ctrl+X", []⟩) := rfl

/-- C1 amended: for every syntactically invalid new binding string,
`update_shortcut` returns an error and leaves the stored shortcut string
unchanged; but the old hotkey does not remain registered with the OS
subsystem — the old binding (when parseable) has already been unregistered
before the failure. -/
theorem update_shortcut_invalid_preserves_string :
    ∀ (env : ShortcutEnv) (st : ShortcutState) (s e : String),
      env.parse s = .error e →
      (update_shortcut env st s).1 = .error e ∧
      (update_shortcut env st s).2.current_shortcut = st.current_shortcut ∧
      (update_shortcut env st s).2.registered =
        (match env.parse st.current_shortcut with
         | .ok old_sc => st.registered.erase old_sc
         | .error _ => st.registered) := by
  intro env st s e h
  simp only [update_shortcut]
  rw [h]
  cases hold : env.parse st.current_shortcut <;> simp [hold]

theorem update_shortcut_invalid_witness :
    (update_shortcut shortcutEnvC ⟨"Ctrl+X", [1]⟩ "garbage").1 =
        .error "couldn't recognize the keybinding" ∧
      (update_shortcut shortcutEnvC ⟨"Ctrl+X", [1]⟩ "garbage").2.current_shortcut =
        "Ctrl+X" :=
  ⟨(update_shortcut_invalid_preserves_string shortcutEnvC ⟨"Ctrl+X", [1]⟩ "garbage"
      "couldn't recognize the keybinding" rfl).1,
   (update_shortcut_invalid_preserves_string shortcutEnvC ⟨"Ctrl+X", [1]⟩ "garbage"
      "couldn't recognize the keybinding" rfl).2.1⟩

/-- C4 counterexample: deletion of the scratch screenshot file is NOT
attempted on every path. When the screenshot tool succeeds and the scratch
file exists but reading it fails, `capture_screen` returns the read error
without attempting `remove_file` — the scratch file is left on disk. -/
theorem capture_screen_no_cleanup_cex :
    capture_screen captureEnvReadFail = (.error "Is a directory (os error 21)", false) := rfl

/-- C4 amended: deletion of the scratch file is attempted exactly on the full
success path — when and only when `capture_screen` returns a data URL; every
absence or error return happens without a deletion attempt. -/
theorem capture_screen_cleanup_iff_data :
    ∀ env : CaptureEnv,
      ((capture_screen env).2 = true ↔ ∃ s, (capture_screen env).1 = .ok (some s)) := by
  intro env
  simp only [capture_screen]
  split
  · simp
  · split
    · simp
    · split
      · simp
      · split
        · simp
        · split
          · simp
          · simp

/-- C8: `check_ocr_dependencies` never fails — it always returns an `Ok`
status; when the version probe reports the engine installed and the
language-list query succeeds, the reported language codes are every line of
its output after the first (header) line and the version is the first output
line; and when every probe launch fails (no OCR engine, no screenshot tool)
it reports `{installed := false, version := none, languages := [],
screenshot_installed := false}`. -/
theorem check_ocr_dependencies_reports :
    ∀ env : DepsEnv,
      (∃ st, check_ocr_dependencies env = .ok st) ∧
      (∀ vo lo, env.tesseractVersion = .ok vo → vo.success = true →
        env.tesseractListLangs = .ok lo → lo.success = true →
        ∃ st, check_ocr_dependencies env = .ok st ∧
          st.tesseract_installed = true ∧
          st.tesseract_version = some ((rustLines vo.stdout).headD []) ∧
          st.languages = (rustLines lo.stdout).drop 1) ∧
      (∀ e1 e2, env.tesseractVersion = .error e1 →
        env.whichGnomeScreenshot = .error e2 →
        check_ocr_dependencies env = .ok ⟨false, none, [], false⟩) := by
  intro env
  refine ⟨⟨_, rfl⟩, ?_, ?_⟩
  · intro vo lo hv hvs hl hls
    refine ⟨_, rfl, ?_⟩
    simp [check_ocr_dependencies, hv, hvs, hl, hls]
  · intro e1 e2 hv hw
    simp [check_ocr_dependencies, hv, hw]

theorem check_ocr_dependencies_witness :
    check_ocr_dependencies depsEnvNone = .ok ⟨false, none, [], false⟩ ∧
      ∃ st, check_ocr_dependencies depsEnvFull = .ok st ∧
        st.tesseract_installed = true ∧
        st.tesseract_version =
          some ((rustLines ("tesseract 5.3.0\nleptonica-1.82.0\n".toList)).headD []) ∧
        st.languages =
          (rustLines ("List of available languages (3):\neng\njpn\nkor\n".toList)).drop 1 :=
  ⟨(check_ocr_dependencies_reports depsEnvNone).2.2 "No such file or directory"
      "No such file or directory" rfl rfl,
   (check_ocr_dependencies_reports depsEnvFull).2.1
      ⟨true, "tesseract 5.3.0\nleptonica-1.82.0\n".toList, []⟩
      ⟨true, "List of available languages (3):\neng\njpn\nkor\n".toList, []⟩
      rfl rfl rfl rfl⟩

/-! ### Helper lemmas about the char-list utilities -/

/-- Splitting never yields an empty piece list. -/
theorem splitOnCh_ne_nil (sep : Char) (l : List Char) : splitOnCh sep l ≠ [] := by
  simp [splitOnCh]

/-- No piece produced by the splitting worker contains the separator. -/
theorem splitOnChAux_not_mem (sep : Char) :
    ∀ l : List Char, sep ∉ (splitOnChAux sep l).1 ∧
      ∀ p ∈ (splitOnChAux sep l).2, sep ∉ p := by
  intro l
  induction l with
  | nil => simp [splitOnChAux]
  | cons c cs ih =>
    by_cases hc : c = sep
    · simp only [splitOnChAux, if_pos hc]
      refine ⟨by simp, ?_⟩
      intro p hp
      rcases List.mem_cons.mp hp with h1 | h2
      · exact h1 ▸ ih.1
      · exact ih.2 p h2
    · simp only [splitOnChAux, if_neg hc]
      refine ⟨?_, ih.2⟩
      intro hm
      rcases List.mem_cons.mp hm with h1 | h2
      · exact hc h1.symm
      · exact ih.1 h2

/-- No piece produced by splitting contains the separator. -/
theorem splitOnCh_not_mem (sep : Char) (l : List Char) :
    ∀ p ∈ splitOnCh sep l, sep ∉ p := by
  intro p hp
  rcases List.mem_cons.mp hp with h1 | h2
  · exact h1 ▸ (splitOnChAux_not_mem sep l).1
  · exact (splitOnChAux_not_mem sep l).2 p h2

/-- The splitting worker leaves a separator-free list whole. -/
theorem splitOnChAux_of_not_mem (sep : Char) :
    ∀ l : List Char, sep ∉ l → splitOnChAux sep l = (l, []) := by
  intro l
  induction l with
  | nil => intro _; rfl
  | cons c cs ih =>
    intro h
    have hc : c ≠ sep := fun hh => h (hh ▸ List.mem_cons_self c cs)
    have hcs : sep ∉ cs := fun hh => h (List.mem_cons_of_mem c hh)
    simp [splitOnChAux, ih hcs, hc]

/-- Splitting a separator-free list yields that list as the single piece. -/
theorem splitOnCh_of_not_mem (sep : Char) (l : List Char) (h : sep ∉ l) :
    splitOnCh sep l = [l] := by
  simp [splitOnCh, splitOnChAux_of_not_mem sep l h]

/-- The splitting worker peels a separator-free head piece off at the first
separator occurrence. -/
theorem splitOnChAux_append (sep : Char) :
    ∀ pre rest : List Char, sep ∉ pre →
      splitOnChAux sep (pre ++ sep :: rest) = (pre, splitOnCh sep rest) := by
  intro pre
  induction pre with
  | nil =>
    intro rest _
    simp [splitOnChAux, splitOnCh]
  | cons c cs ih =>
    intro rest h
    have hc : c ≠ sep := fun hh => h (hh ▸ List.mem_cons_self c cs)
    have hcs : sep ∉ cs := fun hh => h (List.mem_cons_of_mem c hh)
    simp [splitOnChAux, ih rest hcs, hc]

/-- Splitting at the first separator occurrence: a separator-free head piece
comes off whole. -/
theorem splitOnCh_append (sep : Char) (pre rest : List Char) (hpre : sep ∉ pre) :
    splitOnCh sep (pre ++ sep :: rest) = pre :: splitOnCh sep rest := by
  simp [splitOnCh, splitOnChAux_append sep pre rest hpre]

/-- A comma-free payload is extracted unchanged. -/
theorem extractBase64_no_comma (payload : List Char) (h : ',' ∉ payload) :
    extractBase64 payload = payload := by
  simp [extractBase64, h]

/-- The extraction applied to a data URL with a comma-free payload yields the
payload. -/
theorem extractBase64_data_url (pre payload : List Char)
    (hpre : ',' ∉ pre) (hpay : ',' ∉ payload) :
    extractBase64 (pre ++ ',' :: payload) = payload := by
  have hmem : ',' ∈ pre ++ ',' :: payload :=
    List.mem_append_right _ (List.mem_cons_self ',' payload)
  simp only [extractBase64, if_pos hmem, splitOnCh_append ',' pre payload hpre,
    splitOnCh_of_not_mem ',' payload hpay]
  rfl

/-- A character absent from every piece is absent from every assembled line. -/
theorem rustLinesAux_not_mem (c : Char) :
    ∀ parts : List (List Char), (∀ p ∈ parts, c ∉ p) →
      ∀ l ∈ rustLinesAux parts, c ∉ l := by
  intro parts
  induction parts with
  | nil => intro _ l hl; simp [rustLinesAux] at hl
  | cons p rest ih =>
    intro h l hl
    cases rest with
    | nil =>
      simp only [rustLinesAux, endLine] at hl
      split at hl
      · simp at hl
      · rw [List.mem_singleton] at hl
        exact hl ▸ h p (List.mem_cons_self p [])
    | cons q qs =>
      simp only [rustLinesAux] at hl
      rcases List.mem_cons.mp hl with h1 | h2
      · subst h1
        intro hc
        have hcp : c ∈ p := by
          unfold stripCR at hc
          split at hc
          · exact List.dropLast_subset p hc
          · exact hc
        exact h p (List.mem_cons_self p _) hcp
      · exact ih (fun r hr => h r (List.mem_cons_of_mem p hr)) l h2

/-- No Rust line of a string contains a newline character. -/
theorem rustLines_not_mem_nl (s : List Char) : ∀ l ∈ rustLines s, '\n' ∉ l :=
  rustLinesAux_not_mem '\n' (splitOnCh '\n' s) (splitOnCh_not_mem '\n' s)

/-- A non-space character absent from every piece is absent from the join. -/
theorem joinSp_not_mem (c : Char) (hc : c ≠ ' ') :
    ∀ L : List (List Char), (∀ l ∈ L, c ∉ l) → c ∉ joinSp L := by
  intro L
  induction L with
  | nil => intro _; simp [joinSp]
  | cons l ls ih =>
    intro h
    cases ls with
    | nil => simpa [joinSp] using h l (List.mem_cons_self l [])
    | cons m ms =>
      simp only [joinSp]
      intro hmem
      rcases List.mem_append.mp hmem with h1 | h2
      · exact h l (List.mem_cons_self _ _) h1
      · rcases List.mem_cons.mp h2 with h3 | h4
        · exact hc h3
        · exact ih (fun r hr => h r (List.mem_cons_of_mem l hr)) h4

/-- A character of any piece appears in the join. -/
theorem joinSp_mem (c : Char) :
    ∀ (L : List (List Char)) (l : List Char), l ∈ L → c ∈ l → c ∈ joinSp L := by
  intro L
  induction L with
  | nil => intro l hl _; simp at hl
  | cons p ls ih =>
    intro l hl hc
    cases ls with
    | nil =>
      rcases List.mem_cons.mp hl with h1 | h2
      · subst h1; simpa [joinSp] using hc
      · simp at h2
    | cons m ms =>
      simp only [joinSp]
      rcases List.mem_cons.mp hl with h1 | h2
      · exact List.mem_append_left _ (h1 ▸ hc)
      · exact List.mem_append_right _ (List.mem_cons_of_mem _ (ih l h2 hc))

/-- Trimming an all-whitespace list gives the empty list. -/
theorem trimWS_eq_nil (l : List Char) (h : ∀ c ∈ l, isWS c = true) : trimWS l = [] := by
  have h1 : l.dropWhile isWS = [] := List.dropWhile_eq_nil_iff.mpr h
  simp [trimWS, h1]

/-- An element failing the predicate survives `dropWhile`. -/
theorem mem_dropWhile_of_neg (p : Char → Bool) (l : List Char) (c : Char)
    (hc : c ∈ l) (hp : p c = false) : c ∈ l.dropWhile p := by
  rw [← List.takeWhile_append_dropWhile p l] at hc
  rcases List.mem_append.mp hc with h1 | h2
  · have := List.mem_takeWhile_imp h1
    simp [hp] at this
  · exact h2

/-- A list containing a non-whitespace character does not trim to empty. -/
theorem trimWS_ne_nil (l : List Char) (c : Char) (hc : c ∈ l) (hp : isWS c = false) :
    trimWS l ≠ [] := by
  have h1 : c ∈ l.dropWhile isWS := mem_dropWhile_of_neg _ _ _ hc hp
  have h2 : c ∈ (l.dropWhile isWS).reverse := List.mem_reverse.mpr h1
  have h3 : c ∈ (l.dropWhile isWS).reverse.dropWhile isWS :=
    mem_dropWhile_of_neg _ _ _ h2 hp
  have h4 : c ∈ trimWS l := List.mem_reverse.mpr h3
  intro hnil
  rw [hnil] at h4
  simp at h4

/-- The cleaned OCR text is a single line, and that line is not blank. -/
theorem cleanText_single_nonblank (s : List Char) :
    (rustLines (cleanText s)).length ≤ 1 ∧
      ∀ l ∈ rustLines (cleanText s), (trimWS l).isEmpty = false := by
  have hclean : cleanText s =
      joinSp ((rustLines s).filter (fun line => !(trimWS line).isEmpty)) := rfl
  generalize hN : (rustLines s).filter (fun line => !(trimWS line).isEmpty) = kept at hclean
  have hmem : ∀ l ∈ kept, (trimWS l).isEmpty = false ∧ '\n' ∉ l := by
    intro l hl
    rw [← hN] at hl
    exact ⟨by simpa using List.of_mem_filter hl,
      rustLines_not_mem_nl s l (List.filter_subset' _ hl)⟩
  rw [hclean]
  cases kept with
  | nil =>
    refine ⟨by decide, ?_⟩
    intro l hl
    simp [show rustLines (joinSp []) = [] from rfl] at hl
  | cons p ps =>
    obtain ⟨hpK, _⟩ := hmem p (List.mem_cons_self p ps)
    have hex : ∃ c ∈ p, isWS c = false := by
      by_contra hall
      push_neg at hall
      have hallt : ∀ c ∈ p, isWS c = true := by
        intro c hc
        have := hall c hc
        revert this
        cases isWS c <;> simp
      rw [trimWS_eq_nil p hallt] at hpK
      simp at hpK
    obtain ⟨c, hcp, hcw⟩ := hex
    have hnlAll : ∀ l ∈ p :: ps, '\n' ∉ l := fun l hl => (hmem l hl).2
    have hjoin_nl : '\n' ∉ joinSp (p :: ps) := joinSp_not_mem '\n' (by decide) _ hnlAll
    have hcj : c ∈ joinSp (p :: ps) := joinSp_mem c _ p (List.mem_cons_self p ps) hcp
    have hne : joinSp (p :: ps) ≠ [] := by
      intro h0
      rw [h0] at hcj
      simp at hcj
    have hlines : rustLines (joinSp (p :: ps)) = [joinSp (p :: ps)] := by
      unfold rustLines
      rw [splitOnCh_of_not_mem '\n' _ hjoin_nl]
      simp [rustLinesAux, endLine, hne]
    rw [hlines]
    refine ⟨by simp, ?_⟩
    intro l hl
    rw [List.mem_singleton] at hl
    subst hl
    have hnn : trimWS (joinSp (p :: ps)) ≠ [] := trimWS_ne_nil _ c hcj hcw
    cases h2 : trimWS (joinSp (p :: ps)) with
    | nil => exact absurd h2 hnn
    | cons a as => simp

/-- C3 counterexample: the extraction is NOT "split on the first comma and
take the remainder". On the input `"a,b,c"` the code takes only the segment
between the first and second commas (`split(',').nth(1)` gives `"b"`), while
the remainder after the first comma is `"b,c"` — an observable difference,
since base64-decoding `"b"` and `"b,c"` behave differently. -/
theorem extract_base64_not_remainder_cex :
    extractBase64 ("a,b,c".toList) = "b".toList ∧
      specStripDataUrl ("a,b,c".toList) = "b,c".toList ∧
      extractBase64 ("a,b,c".toList) ≠ specStripDataUrl ("a,b,c".toList) :=
  ⟨by decide, by decide, by decide⟩

/-- C3 amended: `ocr_image` takes the segment between the first and second
commas (the whole string when it has no comma). When the payload after the
first comma is itself comma-free — true of every valid base64 payload — this
coincides with "take the remainder", and a data-URL-wrapped payload and the
equivalent raw payload produce identical `OcrOutcome` values in every
environment. -/
theorem ocr_image_data_url_equiv :
    ∀ (env : OcrEnv) (pre payload : List Char), ',' ∉ pre → ',' ∉ payload →
      ocr_image env (pre ++ ',' :: payload) = ocr_image env payload := by
  intro env pre payload hpre hpay
  unfold ocr_image
  rw [extractBase64_data_url pre payload hpre hpay, extractBase64_no_comma payload hpay]

theorem ocr_image_data_url_equiv_witness :
    ocr_image ocrEnvOk ("data:image/png;base64".toList ++ ',' :: "QQ==".toList) =
      ocr_image ocrEnvOk ("QQ==".toList) :=
  ocr_image_data_url_equiv ocrEnvOk ("data:image/png;base64".toList) ("QQ==".toList)
    (by decide) (by decide)

/-- C6: the text of every successful `ocr_image` outcome is the cleaned form
of some engine stdout, and cleaned text is a single line with no blank lines:
lines that are empty after trimming are dropped and the remaining lines are
joined with single spaces. -/
theorem ocr_text_single_nonblank_line :
    (∀ s : List Char, (rustLines (cleanText s)).length ≤ 1 ∧
      ∀ l ∈ rustLines (cleanText s), (trimWS l).isEmpty = false) ∧
    (∀ (env : OcrEnv) (b : List Char) (r : OcrResult) (t : List Char),
      ocr_image env b = .ok r → r.text = some t → ∃ s, t = cleanText s) := by
  refine ⟨cleanText_single_nonblank, ?_⟩
  intro env b r t hok htext
  simp only [ocr_image, ocrFromData] at hok
  split at hok
  · simp at hok
  · split at hok
    · simp at hok
    · split at hok
      · simp at hok
      · split at hok
        · simp at hok
        · split at hok
          · rw [Except.ok.injEq] at hok
            subst hok
            simp only [OcrResult.text, Option.some.injEq] at htext
            exact ⟨_, htext.symm⟩
          · rw [Except.ok.injEq] at hok
            subst hok
            simp at htext

theorem ocr_text_single_nonblank_line_witness :
    (rustLines (cleanText ("ab\n\ncd".toList))).length ≤ 1 ∧
      ∃ s, cleanText ("hello\n\nworld\n".toList) = cleanText s :=
  ⟨(ocr_text_single_nonblank_line.1 ("ab\n\ncd".toList)).1,
   ocr_text_single_nonblank_line.2 ocrEnvOk []
     ⟨true, some (cleanText ("hello\n\nworld\n".toList)), none⟩
     (cleanText ("hello\n\nworld\n".toList)) rfl rfl⟩

/-- A token carrying the `x:` tag cannot also carry the `y:` tag. -/
theorem xTok_not_yTok (p : List Char) (v : List Char)
    (h : stripPre ['x', ':'] p = some v) : stripPre ['y', ':'] p = none := by
  cases p with
  | nil => simp [stripPre] at h
  | cons c cs =>
    simp only [stripPre] at h ⊢
    by_cases hc : c = 'x'
    · subst hc
      rw [if_neg (by decide)]
    · rw [if_neg hc] at h
      cases h

/-- The first component of one loop step: set from an `x:` token, otherwise
kept. -/
theorem cursorStep_fst (a : Int × Int) (p : List Char) :
    (cursorStep a p).1 = if isXTok p then tokVal 'x' p else a.1 := by
  simp only [cursorStep, isXTok, tokVal]
  cases h : stripPre ['x', ':'] p with
  | some val => simp [h]
  | none =>
    cases h2 : stripPre ['y', ':'] p with
    | some val => simp [h, h2]
    | none => simp [h, h2]

/-- The second component of one loop step: set from a `y:` token, otherwise
kept. -/
theorem cursorStep_snd (a : Int × Int) (p : List Char) :
    (cursorStep a p).2 = if isYTok p then tokVal 'y' p else a.2 := by
  simp only [cursorStep, isYTok, tokVal]
  cases h : stripPre ['x', ':'] p with
  | some val => simp [h, xTok_not_yTok p val h]
  | none =>
    cases h2 : stripPre ['y', ':'] p with
    | some val => simp [h, h2]
    | none => simp [h, h2]

/-- The folded x coordinate depends only on the subsequence of `x:` tokens:
it is the last-wins fold over them. -/
theorem foldl_cursorStep_fst :
    ∀ (parts : List (List Char)) (a : Int × Int),
      (parts.foldl cursorStep a).1 =
        (parts.filter isXTok).foldl (fun _ t => tokVal 'x' t) a.1 := by
  intro parts
  induction parts with
  | nil => intro a; rfl
  | cons p rest ih =>
    intro a
    simp only [List.foldl_cons]
    rw [ih]
    by_cases h : isXTok p
    · rw [List.filter_cons_of_pos h, List.foldl_cons]
      congr 1
      rw [cursorStep_fst, if_pos h]
    · rw [List.filter_cons_of_neg (by simp [h])]
      congr 1
      rw [cursorStep_fst, if_neg h]

/-- The folded y coordinate depends only on the subsequence of `y:` tokens:
it is the last-wins fold over them. -/
theorem foldl_cursorStep_snd :
    ∀ (parts : List (List Char)) (a : Int × Int),
      (parts.foldl cursorStep a).2 =
        (parts.filter isYTok).foldl (fun _ t => tokVal 'y' t) a.2 := by
  intro parts
  induction parts with
  | nil => intro a; rfl
  | cons p rest ih =>
    intro a
    simp only [List.foldl_cons]
    rw [ih]
    by_cases h : isYTok p
    · rw [List.filter_cons_of_pos h, List.foldl_cons]
      congr 1
      rw [cursorStep_snd, if_pos h]
    · rw [List.filter_cons_of_neg (by simp [h])]
      congr 1
      rw [cursorStep_snd, if_neg h]

/-- Permuted lists of length at most one are equal. -/
theorem perm_eq_of_length_le_one {l1 l2 : List (List Char)}
    (h : List.Perm l1 l2) (hlen : l1.length ≤ 1) : l1 = l2 := by
  cases l1 with
  | nil => exact List.Perm.nil_eq h
  | cons a l =>
    cases l with
    | nil => exact List.singleton_perm.mp h
    | cons b m => simp at hlen

/-- C9: the cursor-location parse extracts x and y from whitespace-delimited
tokens carrying the `x:` and `y:` tags, independent of token order whenever
each tag occurs at most once; parse failure of a coordinate falls back to the
default 100. The output `"x:640 y:480 screen:0 window:999"` resolves to
`(640, 480)` and the malformed output `"bad data"` resolves to `(100, 100)`. -/
theorem cursor_parse_correct :
    parseCursorLocation ("x:640 y:480 screen:0 window:999".toList) = (640, 480) ∧
      parseCursorLocation ("bad data".toList) = (100, 100) ∧
      ∀ parts1 parts2 : List (List Char), List.Perm parts1 parts2 →
        parts1.countP isXTok ≤ 1 → parts1.countP isYTok ≤ 1 →
        parts1.foldl cursorStep (100, 100) = parts2.foldl cursorStep (100, 100) := by
  refine ⟨by decide, by decide, ?_⟩
  intro parts1 parts2 hperm hx hy
  have hxf : parts1.filter isXTok = parts2.filter isXTok :=
    perm_eq_of_length_le_one (hperm.filter isXTok)
      (by rw [← List.countP_eq_length_filter]; exact hx)
  have hyf : parts1.filter isYTok = parts2.filter isYTok :=
    perm_eq_of_length_le_one (hperm.filter isYTok)
      (by rw [← List.countP_eq_length_filter]; exact hy)
  refine Prod.ext ?_ ?_
  · rw [foldl_cursorStep_fst, foldl_cursorStep_fst, hxf]
  · rw [foldl_cursorStep_snd, foldl_cursorStep_snd, hyf]

theorem cursor_parse_correct_witness :
    List.foldl cursorStep (100, 100) ["y:480".toList, "x:640".toList] =
      List.foldl cursorStep (100, 100) ["x:640".toList, "y:480".toList] :=
  cursor_parse_correct.2.2 ["y:480".toList, "x:640".toList]
    ["x:640".toList, "y:480".toList]
    (List.Perm.swap ("x:640".toList) ("y:480".toList) [])
    (by decide) (by decide)
